import Mathlib

/-!
Shallow embedding of the splref attribution engine.

The definitions below are translated from the Python sources of the
repository (files under app/): the attribution data model (app/models.py),
the attribution store operations (app/services/attributions.py), the
verification scheduler (app/services/integrity.py), the fraud heuristics and
membership handlers (app/handlers/members.py), the review callback handler
(app/handlers/commands.py) and the leaderboard (app/services/leaderboard.py).

Conventions of the embedding:
- timestamps are integers counting seconds (datetime arithmetic becomes
  integer arithmetic; timedelta(minutes=5) becomes 300, and so on);
- the database tables become lists of records held in a SysState record;
  SQLAlchemy row lookups (scalar_one_or_none) become List.find?, and an ORM
  in-place mutation of a row becomes a List.map that rewrites the row keyed
  by the same unique column the Python code used to reach it;
- an asyncio task becomes a Task record carrying the user id, the absolute
  time at which its sleep ends, and a cancelled flag; the module-level
  _verification_tasks dict becomes an association list from user id to task
  id, and task.cancel() marks the task record cancelled;
- Python string operations used by the note logic (split, strip, join,
  sorted, set) are modelled character-list by character-list so that every
  definition is executable and provable; Python sorted is stable, which
  List.insertionSort also is (it inserts an earlier element in front of the
  first later element it compares less-or-equal to).
-/

namespace Splref

/-- Attribution status enum from app/models.py (AttributionStatus). -/
inductive AttributionStatus where
  | pending
  | verified
  | revoked
deriving DecidableEq, Repr

/-- Event type enum from app/models.py (EventType). -/
inductive EventType where
  | join
  | leave
  | promote
  | revoke
deriving DecidableEq, Repr

/-! ### Python string primitives used by the note logic -/

/-- Python str.split on a single comma, over the character list of a string:
splits at every comma and keeps empty pieces, so splitting the empty string
yields one empty piece. -/
def pySplitComma : List Char → List (List Char)
  | [] => [[]]
  | c :: cs =>
    match pySplitComma cs with
    | [] => [[]]
    | p :: ps => if c = ',' then [] :: p :: ps else (c :: p) :: ps

/-- Python str.strip(): drop whitespace from both ends of the string. -/
def pyStrip (s : List Char) : List Char :=
  ((s.dropWhile Char.isWhitespace).reverse.dropWhile Char.isWhitespace).reverse

/-- Python ",".join over character lists. -/
def joinComma : List (List Char) → List Char
  | [] => []
  | [p] => p
  | p :: q :: ps => p ++ ',' :: joinComma (q :: ps)

/-- merge_note from app/services/attributions.py: parse the existing note
(None becomes the empty string) as comma-separated pieces, strip each piece
and drop the empty ones, add the new reason, and reserialize the set of tags
sorted.  The Python set-then-sorted pipeline is modelled by List.dedup
followed by a stable insertion sort under the lexicographic code-point order
on character lists, which is exactly how Python compares strings. -/
def merge_note (existing : Option String) (reason : String) : String :=
  let parts := ((pySplitComma (existing.getD "").data).map pyStrip).filter (· ≠ [])
  let reasons := (reason.data :: parts).dedup
  String.mk (joinComma (List.insertionSort (· ≤ ·) reasons))

/-! ### Fraud heuristics (app/handlers/members.py) -/

/-- The profile fields of an incoming chat member that the heuristics read
(an aiogram User as consumed by the handlers). -/
structure TgUser where
  id : Nat
  username : Option String
  first_name : Option String
  last_name : Option String
  is_bot : Bool
  is_premium : Bool
deriving DecidableEq, Repr

/-- _is_fresh_account from app/handlers/members.py.  Python truthiness of a
possibly-missing string (user.username or "") is modelled by Option.getD ""
followed by an emptiness test. -/
def is_fresh_account (u : TgUser) : Bool :=
  if u.is_bot then true
  else
    let username := u.username.getD ""
    let first_name := u.first_name.getD ""
    if u.is_premium then false
    else if username ≠ "" then false
    else if (pyStrip first_name.data).length ≤ 2 then true
    else false

/-- BURST_WINDOW from app/handlers/members.py: timedelta(minutes=5), in
seconds. -/
def BURST_WINDOW : Int := 300

/-- BURST_THRESHOLD from app/handlers/members.py. -/
def BURST_THRESHOLD : Nat := 3

/-- _record_subnet_event from app/handlers/members.py: pop entries older
than BURST_WINDOW from the front of the per-subnet deque, append the new
timestamp, and report a burst when the resulting length exceeds
BURST_THRESHOLD.  The while-popleft loop is exactly List.dropWhile on the
front of the deque. -/
def record_subnet_event (bucket : List Int) (now : Int) : List Int × Bool :=
  let b := (bucket.dropWhile (fun t => now - t > BURST_WINDOW)) ++ [now]
  (b, decide (b.length > BURST_THRESHOLD))

/-! ### Data model (app/models.py) and system state -/

/-- A row of the users table. -/
structure UserRec where
  id : Nat
  username : Option String
  first_name : Option String
  last_name : Option String
deriving DecidableEq, Repr

/-- A row of the affiliates table. -/
structure AffiliateRec where
  id : Nat
  owner_user_id : Nat
  invite_link : String
  link_code : String
  is_active : Bool
deriving DecidableEq, Repr

/-- A row of the attributions table. -/
structure Attribution where
  id : Nat
  joined_user_id : Nat
  affiliate_id : Nat
  joined_at : Int
  verified_at : Option Int
  status : AttributionStatus
  note : Option String
  last_seen_ip : Option String
  source_subnet : Option String
deriving DecidableEq, Repr

/-- A row of the append-only events ledger.  The opaque raw payload dict is
not part of the embedding; the claims only concern whether and which events
are appended. -/
structure EventRec where
  etype : EventType
  user_id : Nat
  affiliate_id : Option Nat
deriving DecidableEq, Repr

/-- One asyncio task armed by the verification scheduler: the user it will
verify, the absolute time at which its 600-second sleep ends, and whether
task.cancel() has been called on it. -/
structure Task where
  tid : Nat
  uid : Nat
  fireAt : Int
  cancelled : Bool
deriving DecidableEq, Repr

/-- The whole mutable state the embedded code reads and writes: the four
database tables, the per-subnet deques of join timestamps
(_subnet_events in app/handlers/members.py), the tasks created so far, the
_verification_tasks registry from app/services/integrity.py mapping a user
id to the id of its outstanding task, and fresh-id counters for rows and
tasks. -/
structure SysState where
  users : List UserRec
  affiliates : List AffiliateRec
  attributions : List Attribution
  events : List EventRec
  subnetEvents : List (String × List Int)
  tasks : List Task
  registry : List (Nat × Nat)
  nextTid : Nat
  nextAttrId : Nat
deriving DecidableEq, Repr

/-! ### Attribution store operations (app/services/attributions.py) -/

/-- get_attribution_by_user: the unique-per-user attribution row, if any
(scalar_one_or_none over a unique column becomes find?). -/
def get_attribution_by_user (attrs : List Attribution) (uid : Nat) :
    Option Attribution :=
  attrs.find? (fun a => a.joined_user_id == uid)

/-- Python truthiness of an optional note string: None and the empty string
are both falsy (the code tests "not attribution.note"). -/
def is_blank_note (n : Option String) : Bool :=
  n.getD "" == ""

/-- update_attribution_status: set the status; for a transition to verified
the verification timestamp defaults to the current time when the caller
passes none, for every other status it is overwritten with exactly the
passed value. -/
def update_attribution_status (a : Attribution) (status : AttributionStatus)
    (verified_at : Option Int) (now : Int) : Attribution :=
  { a with
    status := status
    verified_at :=
      if status = AttributionStatus.verified then some (verified_at.getD now)
      else verified_at }

/-- The row predicate of flag_subnet_burst: same source subnet and joined at
or after the cutoff. -/
def burst_match (subnet : String) (since : Int) (a : Attribution) : Bool :=
  a.source_subnet == some subnet && decide (since ≤ a.joined_at)

/-- The per-row mutation flag_subnet_burst applies to every matching row:
force status back to pending, clear the verification timestamp, and merge
the ip_burst tag into the note. -/
def burst_update (a : Attribution) : Attribution :=
  { a with
    status := AttributionStatus.pending
    verified_at := none
    note := some (merge_note a.note "ip_burst") }

/-- flag_subnet_burst from app/services/attributions.py: rewrite every
matching row with burst_update and return (new table, list of updated rows);
the caller reads the affected user ids off the returned rows. -/
def flag_subnet_burst (attrs : List Attribution) (subnet : String)
    (since : Int) : List Attribution × List Attribution :=
  (attrs.map (fun a => if burst_match subnet since a then burst_update a else a),
   (attrs.filter (burst_match subnet since)).map burst_update)

/-- upsert_user from app/services/users.py: rewrite the row with this id if
present (last-write-wins on all mutable fields), otherwise insert a new row;
returns the new table and the resulting row. -/
def upsert_user (users : List UserRec) (uid : Nat) (username first_name
    last_name : Option String) : List UserRec × UserRec :=
  let u : UserRec := ⟨uid, username, first_name, last_name⟩
  (match users.find? (fun w => w.id == uid) with
   | some _ => users.map (fun w => if w.id == uid then u else w)
   | none => users ++ [u],
   u)

/-! ### Verification scheduler (app/services/integrity.py) -/

/-- VERIFICATION_DELAY_SECONDS from app/services/integrity.py. -/
def VERIFICATION_DELAY_SECONDS : Int := 600

/-- cancel_verification: pop the user's entry from the task registry and, if
one was there, cancel that task. -/
def cancel_verification (uid : Nat) (st : SysState) : SysState :=
  match st.registry.find? (fun e => e.1 == uid) with
  | none => st
  | some e =>
    { st with
      registry := st.registry.filter (fun x => !(x.1 == uid))
      tasks := st.tasks.map (fun t =>
        if t.tid == e.2 then { t with cancelled := true } else t) }

/-- schedule_verification: cancel any existing task for the user, then arm a
fresh task whose sleep ends VERIFICATION_DELAY_SECONDS from now and register
it under the user id. -/
def schedule_verification (uid : Nat) (now : Int) (st : SysState) : SysState :=
  let st1 := cancel_verification uid st
  let t : Task := ⟨st1.nextTid, uid, now + VERIFICATION_DELAY_SECONDS, false⟩
  { st1 with
    tasks := st1.tasks ++ [t]
    registry := st1.registry ++ [(uid, t.tid)]
    nextTid := st1.nextTid + 1 }

/-- The body of _verify_after_delay once the sleep has elapsed at time
fireTime: re-read the user's attribution; if it is still pending and its
note is blank, transition it to verified with the verification timestamp set
to the firing time, otherwise change nothing; in every case the finally
block pops the user's entry from the task registry. -/
def verify_after_delay (uid : Nat) (fireTime : Int) (st : SysState) :
    SysState :=
  let st1 :=
    match get_attribution_by_user st.attributions uid with
    | some a =>
      if a.status = AttributionStatus.pending ∧ is_blank_note a.note then
        { st with
          attributions := st.attributions.map (fun b : Attribution =>
            if b.joined_user_id == uid then
              update_attribution_status b AttributionStatus.verified
                (some fireTime) fireTime
            else b) }
      else st
    | none => st
  { st1 with registry := st1.registry.filter (fun e => !(e.1 == uid)) }

/-! ### Membership handlers (app/handlers/members.py) -/

/-- Read the per-subnet deque; a defaultdict read of an absent key yields an
empty deque. -/
def lookupSubnet (m : List (String × List Int)) (sn : String) : List Int :=
  ((m.find? (fun e => e.1 == sn)).map (fun e => e.2)).getD []

/-- Write back the per-subnet deque after mutating it in place. -/
def setSubnet (m : List (String × List Int)) (sn : String) (b : List Int) :
    List (String × List Int) :=
  match m.find? (fun e => e.1 == sn) with
  | some _ => m.map (fun e => if e.1 == sn then (sn, b) else e)
  | none => m ++ [(sn, b)]

/-- The data of one membership-join update as consumed by _handle_join.  The
invite-link URL is optional (absent or empty aborts the handler); link_code
stands for extract_link_code applied to that URL, and subnet stands for
_ip_subnet applied to the request IP (pure derivations whose internals the
claims do not touch). -/
structure JoinInput where
  invite_link : Option String
  link_code : String
  user : TgUser
  source_ip : Option String
  subnet : Option String
  now : Int
deriving DecidableEq, Repr

/-- create_attribution from app/services/attributions.py, inlined at its
call site in the join handler: insert a fresh pending row. -/
def create_attribution (st : SysState) (aff : AffiliateRec)
    (joinedUser : UserRec) (joined_at : Int) (source_ip : Option String)
    (source_subnet : Option String) (note : Option String) :
    SysState × Attribution :=
  let row : Attribution :=
    { id := st.nextAttrId
      joined_user_id := joinedUser.id
      affiliate_id := aff.id
      joined_at := joined_at
      verified_at := none
      status := AttributionStatus.pending
      note := note
      last_seen_ip := source_ip
      source_subnet := source_subnet }
  ({ st with
      attributions := st.attributions ++ [row]
      nextAttrId := st.nextAttrId + 1 },
   row)

/-- _handle_join from app/handlers/members.py, step by step: abort when no
invite link; record the join in the subnet window and collect the suspicion
reasons; upsert the user; abort when the code resolves to no affiliate, a
self-owned affiliate or an inactive one, or when the user already has an
attribution; otherwise create the attribution (note is the comma-join of the
reasons, or none), reopen the subnet on a burst, log the join event, and
finally cancel (suspicious) or schedule (clean) the verification timer and
disarm the timers of the other flagged users. -/
def handle_join (inp : JoinInput) (st : SysState) : SysState :=
  if inp.invite_link.getD "" = "" then st
  else
    let sn := inp.subnet.getD ""
    let step1 : List (String × List Int) × Bool :=
      if sn = "" then (st.subnetEvents, false)
      else
        let b := record_subnet_event (lookupSubnet st.subnetEvents sn) inp.now
        (setSubnet st.subnetEvents sn b.1, b.2)
    let suspicion_reasons : List String :=
      (if step1.2 then ["ip_burst"] else []) ++
        (if is_fresh_account inp.user then ["fresh_account"] else [])
    let st0 := { st with subnetEvents := step1.1 }
    let up := upsert_user st0.users inp.user.id inp.user.username
      inp.user.first_name inp.user.last_name
    let st1 := { st0 with users := up.1 }
    let joined := up.2
    match st1.affiliates.find? (fun a => a.link_code == inp.link_code) with
    | none => st1
    | some aff =>
      if aff.owner_user_id == joined.id || !aff.is_active then st1
      else
        match get_attribution_by_user st1.attributions joined.id with
        | some _ => st1
        | none =>
          let note : Option String :=
            if suspicion_reasons.isEmpty then none
            else some (String.mk (joinComma (suspicion_reasons.map String.data)))
          let cr := create_attribution st1 aff joined inp.now inp.source_ip
            inp.subnet note
          let st2 := cr.1
          let fl : List Attribution × List Attribution :=
            if suspicion_reasons.contains "ip_burst" && !(sn == "") then
              flag_subnet_burst st2.attributions sn (inp.now - BURST_WINDOW)
            else (st2.attributions, [])
          let flagged_users := fl.2.map (fun a => a.joined_user_id)
          let st3 :=
            { st2 with
              attributions := fl.1
              events := st2.events ++ [⟨EventType.join, joined.id, some aff.id⟩] }
          let st4 :=
            if !suspicion_reasons.isEmpty then
              cancel_verification inp.user.id st3
            else schedule_verification inp.user.id inp.now st3
          flagged_users.foldl (fun s u =>
            if u == inp.user.id then s else cancel_verification u s) st4

/-- _handle_leave from app/handlers/members.py: upsert the user; if the user
has an attribution whose status is pending or verified, transition it to
revoked passing the existing verification timestamp through unchanged, log
the leave event, and disarm the user's verification timer; otherwise do
nothing more.  The now argument of update_attribution_status is irrelevant
here (its default only applies on a transition to verified) and is passed
as 0. -/
def handle_leave (u : TgUser) (st : SysState) : SysState :=
  let up := upsert_user st.users u.id u.username u.first_name u.last_name
  let st1 := { st with users := up.1 }
  match get_attribution_by_user st1.attributions u.id with
  | none => st1
  | some attribution =>
    if attribution.status = AttributionStatus.pending ∨
        attribution.status = AttributionStatus.verified then
      let st2 :=
        { st1 with
          attributions := st1.attributions.map (fun b : Attribution =>
            if b.joined_user_id == u.id then
              update_attribution_status b AttributionStatus.revoked
                attribution.verified_at 0
            else b)
          events := st1.events ++
            [⟨EventType.leave, u.id, some attribution.affiliate_id⟩] }
      cancel_verification u.id st2
    else st1

/-! ### Review workflow (app/handlers/commands.py, handle_review_callback) -/

/-- The two mutating review actions of the callback payload. -/
inductive ReviewAction where
  | verify
  | revoke
deriving DecidableEq, Repr

/-- handle_review_callback from app/handlers/commands.py, its mutating core:
look the attribution up by id (absent aborts with no state change); verify
transitions it to verified with the verification timestamp set to now and
clears the note; revoke transitions it to revoked passing the existing
verification timestamp through unchanged and merges the manual_revoke tag
into the note; after the transaction the user's verification timer is
disarmed.  The admin gate and the unsupported-action branch mutate nothing
and are outside the embedding. -/
def handle_review_callback (action : ReviewAction) (attrId : Nat) (now : Int)
    (st : SysState) : SysState :=
  match st.attributions.find? (fun a => a.id == attrId) with
  | none => st
  | some attribution =>
    let st1 :=
      match action with
      | ReviewAction.verify =>
        { st with
          attributions := st.attributions.map (fun b : Attribution =>
            if b.id == attrId then
              { update_attribution_status b AttributionStatus.verified
                  (some now) now with note := none }
            else b) }
      | ReviewAction.revoke =>
        { st with
          attributions := st.attributions.map (fun b : Attribution =>
            if b.id == attrId then
              let b1 := update_attribution_status b AttributionStatus.revoked
                attribution.verified_at now
              { b1 with note := some (merge_note b1.note "manual_revoke") }
            else b) }
    cancel_verification attribution.joined_user_id st1

/-! ### Leaderboard (app/services/leaderboard.py) -/

/-- LEADERBOARD_WINDOWS: window key to window length in seconds (none is the
unbounded window). -/
def LEADERBOARD_WINDOWS : List (String × Option Int) :=
  [("all", none), ("7d", some (7 * 86400)), ("30d", some (30 * 86400))]

/-- _window_cutoff: the lower bound on join times for a window key, if the
key names a bounded window. -/
def window_cutoff (now : Int) (window_key : String) : Option Int :=
  match (LEADERBOARD_WINDOWS.find? (fun e => e.1 == window_key)).map
      (fun e => e.2) with
  | some (some d) => some (now - d)
  | _ => none

/-- A Python dict lookup counts[i] on the cached mapping, modelled over an
association list. -/
def countLookup (counts : List (Nat × Nat)) (i : Nat) : Nat :=
  ((counts.find? (fun e => e.1 == i)).map (fun e => e.2)).getD 0

/-- _sorted_affiliates_from_counts: sort the cached affiliate ids by count
descending (Python sorted is stable; insertionSort under the
larger-or-equal-count relation is the same stable sort), take the top limit
ids, resolve affiliate rows for exactly that id set, and emit the resolved
(affiliate, count) pairs in the sorted id order, dropping ids whose row is
gone. -/
def sorted_affiliates_from_counts (affiliates : List AffiliateRec)
    (counts : List (Nat × Nat)) (limit : Nat) : List (AffiliateRec × Nat) :=
  if counts.isEmpty then []
  else
    let affiliate_ids :=
      (List.insertionSort (fun i j => countLookup counts j ≤ countLookup counts i)
        (counts.map (fun e => e.1))).take limit
    if affiliate_ids.isEmpty then []
    else
      affiliate_ids.filterMap (fun i =>
        (affiliates.find? (fun a => a.id == i)).map (fun a =>
          (a, countLookup counts i)))

/-- The WHERE clause of the live aggregate: a verified attribution of this
affiliate whose join time is in the window. -/
def verified_in_window (cutoff : Option Int) (affId : Nat)
    (t : Attribution) : Bool :=
  t.affiliate_id == affId && t.status == AttributionStatus.verified &&
    (match cutoff with
     | some c => decide (c ≤ t.joined_at)
     | none => true)

/-- _live_query_top_affiliates: aggregate verified counts in the window per
affiliate straight off the ledger (inner join, so affiliates with count zero
do not appear), order by count descending, and take the top limit rows.  The
emission order of the SQL GROUP BY is modelled as affiliate-table order; the
tie order of ORDER BY is unspecified in SQL and comes out as table order
here. -/
def live_query_top_affiliates (now : Int) (affiliates : List AffiliateRec)
    (attrs : List Attribution) (window_key : String) (limit : Nat) :
    List (AffiliateRec × Nat) :=
  let cutoff := window_cutoff now window_key
  let rows := affiliates.filterMap (fun a =>
    let total := (attrs.filter (verified_in_window cutoff a.id)).length
    if total = 0 then none else some (a, total))
  (List.insertionSort (fun p q : AffiliateRec × Nat => q.2 ≤ p.2) rows).take
    limit

/-- top_affiliates: normalize the window key to a known one, then serve from
the per-window cache when use_cache is set and an entry for the window is
primed, and fall back to the live aggregate query otherwise. -/
def top_affiliates (now : Int) (affiliates : List AffiliateRec)
    (attrs : List Attribution) (cache : List (String × List (Nat × Nat)))
    (limit : Nat) (window : String) (use_cache : Bool) :
    List (AffiliateRec × Nat) :=
  let window_key :=
    if (LEADERBOARD_WINDOWS.map (fun e => e.1)).contains window then window
    else "all"
  match use_cache, cache.find? (fun e => e.1 == window_key) with
  | true, some entry => sorted_affiliates_from_counts affiliates entry.2 limit
  | _, _ => live_query_top_affiliates now affiliates attrs window_key limit

def attr0 : Attribution :=
  { id := 1, joined_user_id := 10, affiliate_id := 5, joined_at := 1000
    verified_at := some 900, status := AttributionStatus.verified
    note := none, last_seen_ip := some "10.0.0.7"
    source_subnet := some "10.0.0.0/24" }

def attr1 : Attribution :=
  { id := 2, joined_user_id := 11, affiliate_id := 5, joined_at := 100
    verified_at := none, status := AttributionStatus.pending
    note := some "fresh_account", last_seen_ip := none
    source_subnet := some "10.0.0.0/24" }

/-! C7 helper lemmas -/

/-- The sorted deduplicated tag list out of which merge_note builds its
result. -/
def mergedTags (existing : Option String) (reason : String) :
    List (List Char) :=
  List.insertionSort (· ≤ ·)
    ((reason.data ::
      ((pySplitComma (existing.getD "").data).map pyStrip).filter
        (· ≠ [])).dedup)

/-! C6 helper machinery: scheduler registry invariants -/

/-- The live timers of one user: tasks that were created for that user and
have not been cancelled. -/
def liveFor (st : SysState) (uid : Nat) : List Task :=
  st.tasks.filter (fun t => t.uid == uid && !t.cancelled)

/-- Well-formedness of the scheduler state: task ids are below the fresh-id
counter, registry keys and registered task ids are free of duplicates, every
registry entry points at a live task of that user, and every live task is
registered under its user. -/
structure SchedWF (st : SysState) : Prop where
  tid_lt : ∀ t ∈ st.tasks, t.tid < st.nextTid
  reg_keys_nodup : (st.registry.map (fun e => e.1)).Nodup
  reg_tids_nodup : (st.registry.map (fun e => e.2)).Nodup
  reg_sound : ∀ e ∈ st.registry, ∃ t ∈ st.tasks,
    t.tid = e.2 ∧ t.uid = e.1 ∧ t.cancelled = false
  live_reg : ∀ t ∈ st.tasks, t.cancelled = false → (t.uid, t.tid) ∈ st.registry

/-! C8 and C10 helper lemmas -/

def attrP10 : Attribution :=
  { id := 1, joined_user_id := 10, affiliate_id := 5, joined_at := 0
    verified_at := none, status := AttributionStatus.pending
    note := some "fresh_account", last_seen_ip := none
    source_subnet := none }

def stB : SysState :=
  { users := [], affiliates := [], attributions := [attrP10], events := []
    subnetEvents := [], tasks := [⟨0, 10, 600, false⟩]
    registry := [(10, 0)], nextTid := 1, nextAttrId := 3 }

def attrV10 : Attribution :=
  { id := 1, joined_user_id := 10, affiliate_id := 5, joined_at := 0
    verified_at := some 900, status := AttributionStatus.verified
    note := none, last_seen_ip := none, source_subnet := none }

def stC : SysState :=
  { users := [], affiliates := [], attributions := [attrV10], events := []
    subnetEvents := [], tasks := [], registry := [], nextTid := 0
    nextAttrId := 3 }

def tgU10 : TgUser :=
  { id := 10, username := none, first_name := some "Sam", last_name := none
    is_bot := false, is_premium := false }

/-! C2 helper lemmas -/

def affA : AffiliateRec :=
  { id := 5, owner_user_id := 99, invite_link := "https://t.me/+abc"
    link_code := "abc", is_active := true }

def attrJ1 : Attribution :=
  { id := 1, joined_user_id := 20, affiliate_id := 5, joined_at := 0
    verified_at := none, status := AttributionStatus.pending
    note := none, last_seen_ip := some "10.0.0.4"
    source_subnet := some "10.0.0.0/24" }

def attrJ2v : Attribution :=
  { id := 2, joined_user_id := 21, affiliate_id := 5, joined_at := 100
    verified_at := some 700, status := AttributionStatus.verified
    note := none, last_seen_ip := some "10.0.0.5"
    source_subnet := some "10.0.0.0/24" }

def stJ : SysState :=
  { users := [], affiliates := [affA], attributions := [attrJ1, attrJ2v]
    events := [], subnetEvents := [("10.0.0.0/24", [0, 100, 200])]
    tasks := [], registry := [], nextTid := 0, nextAttrId := 10 }

def tgJoin : TgUser :=
  { id := 42, username := some "joe", first_name := some "Joe"
    last_name := none, is_bot := false, is_premium := false }

def inpJ : JoinInput :=
  { invite_link := some "https://t.me/+abc", link_code := "abc"
    user := tgJoin, source_ip := some "10.0.0.9"
    subnet := some "10.0.0.0/24", now := 250 }

def stEmptyUsers : SysState :=
  { users := [], affiliates := [], attributions := [], events := []
    subnetEvents := [], tasks := [], registry := [], nextTid := 0
    nextAttrId := 0 }

/-! C5 helper lemmas -/

def affL1 : AffiliateRec :=
  { id := 1, owner_user_id := 11, invite_link := "https://t.me/+l1"
    link_code := "l1", is_active := true }

def affL2 : AffiliateRec :=
  { id := 2, owner_user_id := 12, invite_link := "https://t.me/+l2"
    link_code := "l2", is_active := true }

def affL3 : AffiliateRec :=
  { id := 3, owner_user_id := 13, invite_link := "https://t.me/+l3"
    link_code := "l3", is_active := false }

def cacheL : List (String × List (Nat × Nat)) :=
  [("7d", [(1, 2), (2, 5), (3, 1)])]

def attrClean : Attribution :=
  { id := 7, joined_user_id := 30, affiliate_id := 5, joined_at := 0
    verified_at := none, status := AttributionStatus.pending
    note := none, last_seen_ip := none, source_subnet := none }

def stV : SysState :=
  { users := [], affiliates := [], attributions := [attrClean], events := []
    subnetEvents := [], tasks := [⟨0, 30, 600, false⟩]
    registry := [(30, 0)], nextTid := 1, nextAttrId := 8 }

/-! ### Theorems -/

/-- C3: for every join event, the fresh-account heuristic flags the account
as suspicious if and only if it is a bot account, or it is not premium and
has no public handle and its trimmed displayed first name has length at most
2; in particular a premium non-bot account is never flagged by this rule
regardless of name or handle, and a non-bot account with a handle is never
flagged by this rule. -/
theorem fresh_account_rule (u : TgUser) :
    (is_fresh_account u = true ↔
      (u.is_bot = true ∨
        (u.is_premium = false ∧ u.username.getD "" = "" ∧
          (pyStrip (u.first_name.getD "").data).length ≤ 2))) ∧
    (u.is_bot = false → u.is_premium = true → is_fresh_account u = false) ∧
    (u.is_bot = false → u.username.getD "" ≠ "" → is_fresh_account u = false) := by
  cases hb : u.is_bot <;> cases hp : u.is_premium <;>
      by_cases hu : u.username.getD "" = "" <;>
    simp [is_fresh_account, hb, hp, hu]

theorem fresh_account_rule_witness :
    is_fresh_account ⟨4, none, some "A", none, false, true⟩ = false ∧
    is_fresh_account ⟨3, some "h", some "A", none, false, false⟩ = false ∧
    is_fresh_account ⟨1, none, some "Al", none, false, false⟩ = true :=
  ⟨(fresh_account_rule _).2.1 rfl rfl,
   (fresh_account_rule _).2.2 rfl (by decide),
   (fresh_account_rule _).1.mpr (Or.inr ⟨rfl, rfl, by decide⟩)⟩

/-- C4: for every attribution whose source subnet equals the given subnet
and whose join time is at or after the given since instant, flagSubnetBurst
forcibly sets its status to pending, clears its verification timestamp and
merges the tag ip_burst into its note, regardless of the current status
(including already-verified records); rows in other subnets or joined before
since are left unchanged, and the returned rows carry exactly the affected
user ids so that callers can disarm those users' timers. -/
theorem flag_subnet_burst_spec (attrs : List Attribution) (subnet : String)
    (since : Int) :
    (flag_subnet_burst attrs subnet since).1.length = attrs.length ∧
    (∀ i (h1 : i < attrs.length)
        (h2 : i < (flag_subnet_burst attrs subnet since).1.length),
      (burst_match subnet since attrs[i] = true →
        (flag_subnet_burst attrs subnet since).1[i] =
          { attrs[i] with
            status := AttributionStatus.pending
            verified_at := none
            note := some (merge_note attrs[i].note "ip_burst") }) ∧
      (burst_match subnet since attrs[i] = false →
        (flag_subnet_burst attrs subnet since).1[i] = attrs[i])) ∧
    (flag_subnet_burst attrs subnet since).2.map (fun a => a.joined_user_id) =
      (attrs.filter (burst_match subnet since)).map (fun a => a.joined_user_id) := by
  refine ⟨by simp [flag_subnet_burst], ?_, ?_⟩
  · intro i h1 h2
    constructor <;> intro hm <;>
      simp [flag_subnet_burst, burst_update, hm]
  · simp [flag_subnet_burst, List.map_map]
    intro a _ _
    rfl

theorem flag_subnet_burst_spec_witness :
    burst_match "10.0.0.0/24" 800 attr0 = true ∧
    burst_match "10.0.0.0/24" 800 attr1 = false ∧
    (flag_subnet_burst [attr0, attr1] "10.0.0.0/24" 800).1[0] =
      { attr0 with
        status := AttributionStatus.pending
        verified_at := none
        note := some (merge_note attr0.note "ip_burst") } ∧
    (flag_subnet_burst [attr0, attr1] "10.0.0.0/24" 800).1[1] = attr1 :=
  ⟨by decide, by decide,
   ((flag_subnet_burst_spec [attr0, attr1] "10.0.0.0/24" 800).2.1 0
      (by decide) (by decide)).1 (by decide),
   ((flag_subnet_burst_spec [attr0, attr1] "10.0.0.0/24" 800).2.1 1
      (by decide) (by decide)).2 (by decide)⟩

/-- C1: the timer armed by schedule fires after the fixed 600-second delay
(VERIFICATION_DELAY_SECONDS = 600 and the armed task's fire time is the
arming time plus that delay); when the fired body runs it re-reads the
user's attribution and transitions it to verified with the verification
timestamp set to the firing time if and only if the record is present,
still pending and carries no risk note; in every other case (absent,
revoked, already verified, or carrying a note) the firing leaves the
attribution table unchanged; and in all cases the fired task removes its
user's entry from the per-user task registry, touching nothing else. -/
theorem verification_timer_spec :
    VERIFICATION_DELAY_SECONDS = 600 ∧
    (∀ uid now st,
      (schedule_verification uid now st).tasks =
        (cancel_verification uid st).tasks ++
          [⟨(cancel_verification uid st).nextTid, uid,
            now + VERIFICATION_DELAY_SECONDS, false⟩]) ∧
    (∀ uid T st,
      (∀ a, get_attribution_by_user st.attributions uid = some a →
        a.status = AttributionStatus.pending → is_blank_note a.note = true →
        (verify_after_delay uid T st).attributions =
          st.attributions.map (fun b : Attribution =>
            if b.joined_user_id == uid then
              { b with status := AttributionStatus.verified, verified_at := some T }
            else b)) ∧
      (get_attribution_by_user st.attributions uid = none →
        (verify_after_delay uid T st).attributions = st.attributions) ∧
      (∀ a, get_attribution_by_user st.attributions uid = some a →
        (a.status ≠ AttributionStatus.pending ∨ is_blank_note a.note = false) →
        (verify_after_delay uid T st).attributions = st.attributions) ∧
      (verify_after_delay uid T st).registry =
        st.registry.filter (fun e => !(e.1 == uid)) ∧
      (verify_after_delay uid T st).users = st.users ∧
      (verify_after_delay uid T st).events = st.events ∧
      (verify_after_delay uid T st).tasks = st.tasks ∧
      (verify_after_delay uid T st).subnetEvents = st.subnetEvents) := by
  refine ⟨rfl, fun uid now st => rfl, fun uid T st => ?_⟩
  refine ⟨?_, ?_, ?_, ?_, ?_, ?_, ?_, ?_⟩
  · intro a ha hs hn
    simp [verify_after_delay, ha, hs, hn, update_attribution_status]
  · intro ha
    simp [verify_after_delay, ha]
  · intro a ha hd
    rcases hd with hd | hd
    · simp [verify_after_delay, ha, hd]
    · simp [verify_after_delay, ha, hd]
  all_goals
    unfold verify_after_delay
    rcases hg : get_attribution_by_user st.attributions uid with _ | a
    · simp [hg]
    · by_cases hc : a.status = AttributionStatus.pending ∧ is_blank_note a.note
      · simp [hg, hc]
      · simp [hg, hc]

theorem dropWhile_idem {α : Type} (p : α → Bool) (l : List α) :
    (l.dropWhile p).dropWhile p = l.dropWhile p := by
  induction l with
  | nil => rfl
  | cons a t ih =>
    by_cases h : p a = true
    · simp [List.dropWhile_cons, h, ih]
    · simp [List.dropWhile_cons, h]

theorem pySplitComma_ne_nil (s : List Char) : pySplitComma s ≠ [] := by
  induction s with
  | nil => simp [pySplitComma]
  | cons c cs ih =>
    cases h : pySplitComma cs with
    | nil => exact absurd h ih
    | cons q qs =>
      simp only [pySplitComma, h]
      by_cases hc : c = ',' <;> simp [hc]

theorem mem_pySplitComma_no_comma (s : List Char) :
    ∀ p ∈ pySplitComma s, ',' ∉ p := by
  induction s with
  | nil => intro p hp; simp [pySplitComma] at hp; simp [hp]
  | cons c cs ih =>
    intro p hp
    cases h : pySplitComma cs with
    | nil => exact absurd h (pySplitComma_ne_nil cs)
    | cons q qs =>
      simp only [pySplitComma, h] at hp
      by_cases hc : c = ','
      · simp [hc] at hp
        rcases hp with hp | hp | hp
        · simp [hp]
        · exact ih p (by rw [h, hp]; exact List.mem_cons_self q qs)
        · exact ih p (by rw [h]; exact List.mem_cons_of_mem q hp)
      · simp [hc] at hp
        rcases hp with hp | hp
        · subst hp
          intro hmem
          rcases List.mem_cons.mp hmem with h1 | h1
          · exact hc h1.symm
          · exact ih q (by rw [h]; exact List.mem_cons_self q qs) h1
        · exact ih p (by rw [h]; exact List.mem_cons_of_mem q hp)

theorem pySplitComma_no_comma_eq (s : List Char) (h : ',' ∉ s) :
    pySplitComma s = [s] := by
  induction s with
  | nil => rfl
  | cons c cs ih =>
    have hc : c ≠ ',' := fun hcc => h (by rw [hcc]; exact List.mem_cons_self _ _)
    have hcs : ',' ∉ cs := fun hm => h (List.mem_cons_of_mem _ hm)
    simp only [pySplitComma, ih hcs]
    simp [hc]

theorem pySplitComma_append (p : List Char) (hp : ',' ∉ p) (t : List Char)
    (q : List Char) (qs : List (List Char)) (hq : pySplitComma t = q :: qs) :
    pySplitComma (p ++ t) = (p ++ q) :: qs := by
  induction p with
  | nil => simpa using hq
  | cons c cp ih =>
    have hc : c ≠ ',' := fun hcc => hp (by rw [hcc]; exact List.mem_cons_self _ _)
    have hcp : ',' ∉ cp := fun hm => hp (List.mem_cons_of_mem _ hm)
    simp only [List.cons_append, pySplitComma, List.append_eq]
    rw [ih hcp]
    simp [hc]

theorem pySplitComma_joinComma (ps : List (List Char)) (q : List Char)
    (h : ∀ p ∈ q :: ps, ',' ∉ p) :
    pySplitComma (joinComma (q :: ps)) = q :: ps := by
  induction ps generalizing q with
  | nil => exact pySplitComma_no_comma_eq q (h q (List.mem_cons_self _ _))
  | cons r ps ih =>
    have hq : ',' ∉ q := h q (List.mem_cons_self _ _)
    have hrest : ∀ p ∈ r :: ps, ',' ∉ p := fun p hp =>
      h p (List.mem_cons_of_mem _ hp)
    have hrec := ih r hrest
    show pySplitComma (q ++ ',' :: joinComma (r :: ps)) = q :: r :: ps
    have hsplit : pySplitComma (',' :: joinComma (r :: ps)) =
        [] :: r :: ps := by
      cases hx : pySplitComma (joinComma (r :: ps)) with
      | nil => exact absurd hx (pySplitComma_ne_nil _)
      | cons y ys =>
        rw [hx] at hrec
        simp only [pySplitComma, hx, if_pos rfl]
        simp [hrec]
    have := pySplitComma_append q hq (',' :: joinComma (r :: ps)) [] (r :: ps) hsplit
    simpa using this

theorem dropWhile_head?_not {α : Type} (p : α → Bool) (l : List α) (a : α)
    (h : (l.dropWhile p).head? = some a) : p a = false := by
  induction l with
  | nil => simp [List.dropWhile] at h
  | cons b t ih =>
    by_cases hb : p b = true
    · rw [List.dropWhile_cons, if_pos hb] at h
      exact ih h
    · rw [List.dropWhile_cons, if_neg hb] at h
      simp at h
      rw [← h]
      simpa using hb

theorem dropWhile_eq_self_of_head? {α : Type} (p : α → Bool) (l : List α)
    (h : ∀ a, l.head? = some a → p a = false) : l.dropWhile p = l := by
  cases l with
  | nil => rfl
  | cons b t =>
    rw [List.dropWhile_cons, if_neg]
    simp [h b rfl]

theorem getLast?_dropWhile {α : Type} (p : α → Bool) (l : List α)
    (h : l.dropWhile p ≠ []) : (l.dropWhile p).getLast? = l.getLast? := by
  induction l with
  | nil => simp [List.dropWhile] at h
  | cons b t ih =>
    by_cases hb : p b = true
    · rw [List.dropWhile_cons, if_pos hb] at h ⊢
      rw [ih h]
      cases ht : t with
      | nil => rw [ht] at h; simp [List.dropWhile] at h
      | cons x xs => simp [List.getLast?_cons_cons]
    · rw [List.dropWhile_cons, if_neg hb]

theorem mem_pyStrip (s : List Char) (x : Char) (h : x ∈ pyStrip s) : x ∈ s := by
  unfold pyStrip at h
  rw [List.mem_reverse] at h
  have h1 := (List.dropWhile_sublist (l := (s.dropWhile Char.isWhitespace).reverse)
    (p := Char.isWhitespace)).mem h
  rw [List.mem_reverse] at h1
  exact (List.dropWhile_sublist (l := s) (p := Char.isWhitespace)).mem h1

theorem pyStrip_head (s : List Char) :
    (pyStrip s).dropWhile Char.isWhitespace = pyStrip s := by
  apply dropWhile_eq_self_of_head?
  intro a ha
  unfold pyStrip at ha
  rw [List.head?_reverse] at ha
  have hm : ((s.dropWhile Char.isWhitespace).reverse.dropWhile
      Char.isWhitespace) ≠ [] := by
    intro hnil
    rw [hnil] at ha
    simp at ha
  rw [getLast?_dropWhile _ _ hm, List.getLast?_reverse] at ha
  exact dropWhile_head?_not _ _ _ ha

theorem pyStrip_idem (s : List Char) : pyStrip (pyStrip s) = pyStrip s := by
  conv_lhs => rw [pyStrip]
  rw [pyStrip_head s]
  show ((pyStrip s).reverse.dropWhile Char.isWhitespace).reverse = pyStrip s
  unfold pyStrip
  rw [List.reverse_reverse, dropWhile_idem]

theorem merge_note_eq_joined (existing : Option String) (reason : String) :
    merge_note existing reason = String.mk (joinComma (mergedTags existing reason)) := rfl

theorem mem_mergedTags (existing : Option String) (reason : String)
    (p : List Char) (hp : p ∈ mergedTags existing reason) :
    p = reason.data ∨
      p ∈ ((pySplitComma (existing.getD "").data).map pyStrip).filter
        (· ≠ []) := by
  unfold mergedTags at hp
  rw [List.mem_insertionSort, List.mem_dedup] at hp
  simpa using hp

theorem reason_mem_mergedTags (existing : Option String) (reason : String) :
    reason.data ∈ mergedTags existing reason := by
  unfold mergedTags
  rw [List.mem_insertionSort, List.mem_dedup]
  exact List.mem_cons_self _ _

theorem mergedTags_sorted (existing : Option String) (reason : String) :
    List.Sorted (· ≤ ·) (mergedTags existing reason) :=
  List.sorted_insertionSort _ _

theorem mergedTags_nodup (existing : Option String) (reason : String) :
    (mergedTags existing reason).Nodup :=
  ((List.perm_insertionSort _ _).nodup_iff).mpr (List.nodup_dedup _)

theorem mergedTags_good (existing : Option String) (reason : String)
    (h1 : reason ≠ "") (h2 : ',' ∉ reason.data)
    (h3 : pyStrip reason.data = reason.data) :
    ∀ p ∈ mergedTags existing reason,
      ',' ∉ p ∧ pyStrip p = p ∧ p ≠ [] := by
  intro p hp
  rcases mem_mergedTags existing reason p hp with hr | hq
  · subst hr
    refine ⟨h2, h3, ?_⟩
    intro hnil
    apply h1
    cases reason with
    | mk d => exact congrArg String.mk (by simpa using hnil)
  · rw [List.mem_filter] at hq
    rcases hq with ⟨hmem, hne⟩
    rw [List.mem_map] at hmem
    rcases hmem with ⟨q, hqmem, hqeq⟩
    subst hqeq
    refine ⟨?_, pyStrip_idem q, by simpa using hne⟩
    intro hcomma
    exact mem_pySplitComma_no_comma _ q hqmem (mem_pyStrip q ',' hcomma)

theorem merge_note_example :
    merge_note (some "fresh_account") "ip_burst" = "fresh_account,ip_burst" := by
  decide

theorem merge_note_idem (existing : Option String) (reason : String)
    (h1 : reason ≠ "") (h2 : ',' ∉ reason.data)
    (h3 : pyStrip reason.data = reason.data) :
    merge_note (some (merge_note existing reason)) reason =
      merge_note existing reason := by
  have hgood := mergedTags_good existing reason h1 h2 h3
  have hmem := reason_mem_mergedTags existing reason
  have hnodup := mergedTags_nodup existing reason
  have hsorted := mergedTags_sorted existing reason
  rw [merge_note_eq_joined existing reason, merge_note_eq_joined]
  suffices hS : mergedTags
      (some (String.mk (joinComma (mergedTags existing reason)))) reason =
      mergedTags existing reason by
    rw [hS]
  cases hScases : mergedTags existing reason with
  | nil => rw [hScases] at hmem; simp at hmem
  | cons q ps =>
    rw [hScases] at hgood hmem hnodup hsorted
    have hcommafree : ∀ p ∈ q :: ps, ',' ∉ p := fun p hp => (hgood p hp).1
    have hsplit : pySplitComma (joinComma (q :: ps)) = q :: ps :=
      pySplitComma_joinComma ps q hcommafree
    have hmap : (q :: ps).map pyStrip = q :: ps := by
      have hmc := List.map_congr_left (l := q :: ps) (f := pyStrip) (g := id)
        (fun p hp => (hgood p hp).2.1)
      simpa using hmc
    have hfil : (q :: ps).filter (· ≠ []) = q :: ps :=
      List.filter_eq_self.mpr (fun p hp => by simpa using (hgood p hp).2.2)
    have hded : (reason.data :: q :: ps).dedup = q :: ps := by
      rw [List.dedup_cons_of_mem hmem]
      exact List.Nodup.dedup hnodup
    unfold mergedTags
    simp only [Option.getD_some]
    rw [hsplit, hmap, hfil, hded]
    exact List.Sorted.insertionSort_eq hsorted

/-- C7: mergeNote parses the existing note as a set of comma-separated tags,
adds the new tag, and reserializes sorted and deduplicated; the result is a
deterministic function of its arguments, merging ip_burst into the note
fresh_account yields exactly fresh_account,ip_burst, and merging a tag that
is already present (re-merging the same well-formed tag: nonempty,
comma-free, already stripped) is idempotent, leaving the note unchanged. -/
theorem merge_note_spec :
    merge_note (some "fresh_account") "ip_burst" = "fresh_account,ip_burst" ∧
    (∀ (existing : Option String) (reason : String),
      reason ≠ "" → ',' ∉ reason.data → pyStrip reason.data = reason.data →
      merge_note (some (merge_note existing reason)) reason =
        merge_note existing reason) :=
  ⟨merge_note_example, merge_note_idem⟩

/-- Witness for C7 at the spec example: re-merging ip_burst into the merged
note is a no-op. -/
theorem merge_note_spec_witness :
    merge_note (some "fresh_account") "ip_burst" = "fresh_account,ip_burst" ∧
    merge_note (some (merge_note (some "fresh_account") "ip_burst"))
        "ip_burst" =
      merge_note (some "fresh_account") "ip_burst" :=
  ⟨merge_note_spec.1,
   merge_note_spec.2 (some "fresh_account") "ip_burst" (by decide)
     (by decide) (by decide)⟩

theorem find?_key_unique {l : List (Nat × Nat)}
    (hnd : (l.map (fun e => e.1)).Nodup) {e : Nat × Nat} (he : e ∈ l) :
    l.find? (fun x => x.1 == e.1) = some e := by
  induction l with
  | nil => simp at he
  | cons a l ih =>
    rw [List.map_cons, List.nodup_cons] at hnd
    rcases List.mem_cons.mp he with rfl | hmem
    · simp [List.find?_cons]
    · have hne : ¬(a.1 == e.1) = true := by
        simp only [beq_iff_eq]
        intro hk
        exact hnd.1 (hk ▸ List.mem_map_of_mem (fun x => x.1) hmem)
      have hne2 : (a.1 == e.1) = false := by simpa using hne
      simp [List.find?_cons, hne2]
      exact ih hnd.2 hmem

theorem cancel_verification_of_none {uid : Nat} {st : SysState}
    (h : st.registry.find? (fun e => e.1 == uid) = none) :
    cancel_verification uid st = st := by
  simp [cancel_verification, h]

theorem cancel_find_none (uid : Nat) (st : SysState) :
    (cancel_verification uid st).registry.find? (fun e => e.1 == uid) = none := by
  unfold cancel_verification
  cases h : st.registry.find? (fun e => e.1 == uid) with
  | none => exact h
  | some e =>
    simp only
    rw [List.find?_eq_none]
    intro x hx
    rw [List.mem_filter] at hx
    simpa using hx.2

theorem cancel_cancels (uid : Nat) (st : SysState) (e : Nat × Nat)
    (h : st.registry.find? (fun x => x.1 == uid) = some e) :
    ∀ tk ∈ (cancel_verification uid st).tasks, tk.tid = e.2 →
      tk.cancelled = true := by
  unfold cancel_verification
  rw [h]
  simp only
  intro tk htk htid
  rw [List.mem_map] at htk
  rcases htk with ⟨t, htmem, himg⟩
  by_cases hc : (t.tid == e.2) = true
  · rw [if_pos hc] at himg
    rw [← himg]
  · rw [if_neg hc] at himg
    subst himg
    simp [htid] at hc

theorem cancel_live_nil (uid : Nat) (st : SysState) (h : SchedWF st) :
    liveFor (cancel_verification uid st) uid = [] := by
  unfold liveFor cancel_verification
  cases hf : st.registry.find? (fun e => e.1 == uid) with
  | none =>
    simp only
    rw [List.filter_eq_nil_iff]
    intro t ht
    intro hpred
    rw [Bool.and_eq_true, beq_iff_eq, Bool.not_eq_eq_eq_not, Bool.not_true] at hpred
    have hreg := h.live_reg t ht hpred.2
    rw [List.find?_eq_none] at hf
    have hx := hf _ hreg
    rw [hpred.1] at hx
    simp at hx
  | some e =>
    simp only
    rw [List.filter_eq_nil_iff]
    intro t' ht'
    rw [List.mem_map] at ht'
    rcases ht' with ⟨t, htmem, himg⟩
    by_cases hc : (t.tid == e.2) = true
    · rw [if_pos hc] at himg
      rw [← himg]
      simp
    · rw [if_neg hc] at himg
      subst himg
      intro hpred
      rw [Bool.and_eq_true, beq_iff_eq, Bool.not_eq_eq_eq_not, Bool.not_true] at hpred
      have hreg := h.live_reg t htmem hpred.2
      rw [hpred.1] at hreg
      have := find?_key_unique h.reg_keys_nodup hreg
      simp only at this
      rw [this] at hf
      have he : (uid, t.tid) = e := by
        injection hf
      rw [← he] at hc
      simp at hc

theorem cancel_nextTid (uid : Nat) (st : SysState) :
    (cancel_verification uid st).nextTid = st.nextTid := by
  unfold cancel_verification
  cases st.registry.find? (fun e => e.1 == uid) <;> rfl

theorem cancel_keys_ne (uid : Nat) (st : SysState) :
    ∀ p ∈ (cancel_verification uid st).registry, p.1 ≠ uid := by
  intro p hp hkey
  have hf := cancel_find_none uid st
  rw [List.find?_eq_none] at hf
  exact hf p hp (by simp [hkey])

theorem SchedWF_cancel (uid : Nat) (st : SysState) (h : SchedWF st) :
    SchedWF (cancel_verification uid st) := by
  unfold cancel_verification
  cases hf : st.registry.find? (fun e => e.1 == uid) with
  | none => exact h
  | some e =>
    have hekey : e.1 = uid := by
      have := List.find?_some hf
      simpa using this
    have hemem : e ∈ st.registry := List.mem_of_find?_eq_some hf
    refine ⟨?_, ?_, ?_, ?_, ?_⟩
    · intro t ht
      simp only at ht ⊢
      rw [List.mem_map] at ht
      rcases ht with ⟨t0, ht0, himg⟩
      have hlt := h.tid_lt t0 ht0
      by_cases hc : (t0.tid == e.2) = true
      · rw [if_pos hc] at himg
        rw [← himg]
        simpa using hlt
      · rw [if_neg hc] at himg
        rw [← himg]
        exact hlt
    · simp only
      exact h.reg_keys_nodup.sublist ((List.filter_sublist _).map _)
    · simp only
      exact h.reg_tids_nodup.sublist ((List.filter_sublist _).map _)
    · intro p hp
      simp only at hp ⊢
      rw [List.mem_filter] at hp
      rcases hp with ⟨hpmem, hpkey⟩
      have hpne : p.1 ≠ uid := by simpa using hpkey
      rcases h.reg_sound p hpmem with ⟨t, htmem, htid, huid, hcanc⟩
      have htidne : (t.tid == e.2) = false := by
        rw [beq_eq_false_iff_ne]
        intro htide
        have hpe : p = e := List.inj_on_of_nodup_map h.reg_tids_nodup
          hpmem hemem (by rw [← htid, htide])
        exact hpne (by rw [hpe, hekey])
      refine ⟨t, ?_, htid, huid, hcanc⟩
      have himg : (if (t.tid == e.2) = true then { t with cancelled := true }
          else t) = t := by rw [if_neg (by simp [htidne])]
      rw [← himg]
      exact List.mem_map_of_mem _ htmem
    · intro t ht hcanc
      simp only at ht ⊢
      rw [List.mem_map] at ht
      rcases ht with ⟨t0, ht0, himg⟩
      by_cases hc : (t0.tid == e.2) = true
      · rw [if_pos hc] at himg
        rw [← himg] at hcanc
        simp at hcanc
      · rw [if_neg hc] at himg
        subst himg
        have hreg := h.live_reg t0 ht0 hcanc
        rw [List.mem_filter]
        refine ⟨hreg, ?_⟩
        simp only [Bool.not_eq_eq_eq_not, Bool.not_true, beq_eq_false_iff_ne]
        intro huid
        have hpe : (t0.uid, t0.tid) = e := List.inj_on_of_nodup_map
          h.reg_keys_nodup hreg hemem (by simpa [hekey] using huid)
        have : t0.tid = e.2 := congrArg Prod.snd hpe
        simp [this] at hc

theorem SchedWF_schedule (uid : Nat) (now : Int) (st : SysState)
    (h : SchedWF st) : SchedWF (schedule_verification uid now st) := by
  have h1 := SchedWF_cancel uid st h
  have hkeys := cancel_keys_ne uid st
  unfold schedule_verification
  simp only
  refine ⟨?_, ?_, ?_, ?_, ?_⟩
  · intro t ht
    simp only
    rcases List.mem_append.mp ht with hmem | hmem
    · exact Nat.lt_succ_of_lt (h1.tid_lt t hmem)
    · rw [List.mem_singleton] at hmem
      rw [hmem]
      exact Nat.lt_succ_self _
  · simp only [List.map_append, List.map_cons, List.map_nil]
    rw [List.nodup_append]
    refine ⟨h1.reg_keys_nodup, List.nodup_singleton _, ?_⟩
    intro a ha
    rw [List.mem_map] at ha
    rcases ha with ⟨p, hpmem, hpeq⟩
    simp only [List.mem_singleton]
    intro haeq
    exact hkeys p hpmem (by rw [hpeq, haeq])
  · simp only [List.map_append, List.map_cons, List.map_nil]
    rw [List.nodup_append]
    refine ⟨h1.reg_tids_nodup, List.nodup_singleton _, ?_⟩
    intro a ha
    rw [List.mem_map] at ha
    rcases ha with ⟨p, hpmem, hpeq⟩
    simp only [List.mem_singleton]
    intro haeq
    rcases h1.reg_sound p hpmem with ⟨t, htmem, htid, _, _⟩
    have := h1.tid_lt t htmem
    rw [htid, hpeq, haeq] at this
    exact absurd this (Nat.lt_irrefl _)
  · intro p hp
    simp only at hp ⊢
    rcases List.mem_append.mp hp with hmem | hmem
    · rcases h1.reg_sound p hmem with ⟨t, htmem, htid, huid, hcanc⟩
      exact ⟨t, List.mem_append_left _ htmem, htid, huid, hcanc⟩
    · rw [List.mem_singleton] at hmem
      refine ⟨⟨(cancel_verification uid st).nextTid, uid,
        now + VERIFICATION_DELAY_SECONDS, false⟩, ?_, ?_, ?_, rfl⟩
      · exact List.mem_append_right _ (List.mem_singleton_self _)
      · rw [hmem]
      · rw [hmem]
  · intro t ht hcanc
    simp only at ht ⊢
    rcases List.mem_append.mp ht with hmem | hmem
    · exact List.mem_append_left _ (h1.live_reg t hmem hcanc)
    · rw [List.mem_singleton] at hmem
      rw [hmem]
      exact List.mem_append_right _ (List.mem_singleton_self _)

theorem schedule_live (uid : Nat) (now : Int) (st : SysState) :
    liveFor (schedule_verification uid now st) uid =
      liveFor (cancel_verification uid st) uid ++
        [⟨(cancel_verification uid st).nextTid, uid,
          now + VERIFICATION_DELAY_SECONDS, false⟩] := by
  simp [liveFor, schedule_verification, List.filter_append]

/-- C6: the verification scheduler keeps at most one outstanding timer per
user: starting from a well-formed registry, calling schedule twice in a row
leaves exactly one live (uncancelled) timer for that user, and the registry
maps the user to exactly that task; cancel removes and cancels the user's
task when one is registered and is a no-op on the whole state when none
exists. -/
theorem scheduler_single_timer (st : SysState) (uid : Nat) (t1 t2 : Int)
    (h : SchedWF st) :
    (liveFor (schedule_verification uid t2 (schedule_verification uid t1 st))
      uid).length = 1 ∧
    (∃ tk : Task,
      liveFor (schedule_verification uid t2 (schedule_verification uid t1 st))
          uid = [tk] ∧
      tk.uid = uid ∧ tk.cancelled = false ∧
      (schedule_verification uid t2
          (schedule_verification uid t1 st)).registry.find?
        (fun e => e.1 == uid) = some (uid, tk.tid)) ∧
    (∀ (s : SysState) (u : Nat),
      s.registry.find? (fun e => e.1 == u) = none →
        cancel_verification u s = s) ∧
    (∀ (s : SysState) (u : Nat) (e : Nat × Nat),
      s.registry.find? (fun x => x.1 == u) = some e →
      (cancel_verification u s).registry.find? (fun x => x.1 == u) = none ∧
      ∀ tk ∈ (cancel_verification u s).tasks, tk.tid = e.2 →
        tk.cancelled = true) := by
  have h1 : SchedWF (schedule_verification uid t1 st) :=
    SchedWF_schedule uid t1 st h
  have hlive : liveFor (schedule_verification uid t2
      (schedule_verification uid t1 st)) uid =
      [⟨(cancel_verification uid (schedule_verification uid t1 st)).nextTid,
        uid, t2 + VERIFICATION_DELAY_SECONDS, false⟩] := by
    rw [schedule_live, cancel_live_nil uid _ h1]
    rfl
  refine ⟨by rw [hlive]; rfl, ?_, ?_, ?_⟩
  · refine ⟨_, hlive, rfl, rfl, ?_⟩
    show (schedule_verification uid t2
        (schedule_verification uid t1 st)).registry.find?
      (fun e => e.1 == uid) = some (uid, _)
    unfold schedule_verification
    simp only
    rw [List.find?_append, cancel_find_none]
    simp [List.find?_cons]
  · intro s u hnone
    exact cancel_verification_of_none hnone
  · intro s u e hsome
    exact ⟨cancel_find_none u s, cancel_cancels u s e hsome⟩

theorem scheduler_single_timer_witness :
    (liveFor (schedule_verification 7 5 (schedule_verification 7 0
      ⟨[], [], [], [], [], [], [], 0, 0⟩)) 7).length = 1 :=
  (scheduler_single_timer ⟨[], [], [], [], [], [], [], 0, 0⟩ 7 0 5
    ⟨by decide, by decide, by decide, by decide, by decide⟩).1

theorem cancel_attributions (u : Nat) (s : SysState) :
    (cancel_verification u s).attributions = s.attributions := by
  unfold cancel_verification
  cases s.registry.find? (fun e => e.1 == u) <;> rfl

theorem find?_map_self_key (l : List Attribution) (u : Nat) (a : Attribution)
    (g : Attribution → Attribution)
    (hfind : l.find? (fun x => x.joined_user_id == u) = some a)
    (hg : (g a).joined_user_id = a.joined_user_id) :
    (l.map (fun b => if b.joined_user_id == u then g b else b)).find?
      (fun x => x.joined_user_id == u) = some (g a) := by
  rw [List.find?_eq_some] at hfind
  rcases hfind with ⟨hpa, as, bs, hsplit, hprev⟩
  subst hsplit
  rw [List.map_append, List.map_cons]
  have hmap_as : as.map (fun b => if b.joined_user_id == u then g b else b)
      = as := by
    have hmc := List.map_congr_left (l := as)
      (f := fun b => if b.joined_user_id == u then g b else b) (g := id)
      (fun x hx => by
        have := hprev x hx
        simp only [Bool.not_eq_eq_eq_not, Bool.not_true] at this
        simp [this])
    simpa using hmc
  rw [hmap_as, List.find?_append]
  have hnone : as.find? (fun x => x.joined_user_id == u) = none := by
    rw [List.find?_eq_none]
    intro x hx
    have := hprev x hx
    simp only [Bool.not_eq_eq_eq_not, Bool.not_true] at this
    simp [this]
  rw [hnone]
  simp only [Option.none_or]
  have hga : ((g a).joined_user_id == u) = true := by
    rw [hg]
    exact hpa
  simp [List.find?_cons, hpa, hga]

theorem find?_map_other_key (l : List Attribution) (aid u : Nat)
    (a : Attribution) (g : Attribution → Attribution)
    (hfind : l.find? (fun x => x.id == aid) = some a)
    (hu : a.joined_user_id = u)
    (hnd : (l.map (fun x => x.joined_user_id)).Nodup)
    (hg : (g a).joined_user_id = a.joined_user_id) :
    (l.map (fun b => if b.id == aid then g b else b)).find?
      (fun x => x.joined_user_id == u) = some (g a) := by
  rw [List.find?_eq_some] at hfind
  rcases hfind with ⟨hpa, as, bs, hsplit, hprev⟩
  subst hsplit
  rw [List.map_append, List.map_cons] at hnd ⊢
  rw [List.nodup_append] at hnd
  have hdisj := hnd.2.2
  have hmap_as : as.map (fun b => if b.id == aid then g b else b) = as := by
    have hmc := List.map_congr_left (l := as)
      (f := fun b => if b.id == aid then g b else b) (g := id)
      (fun x hx => by
        have := hprev x hx
        simp only [Bool.not_eq_eq_eq_not, Bool.not_true] at this
        simp [this])
    simpa using hmc
  rw [hmap_as, List.find?_append]
  have hnone : as.find? (fun x => x.joined_user_id == u) = none := by
    rw [List.find?_eq_none]
    intro x hx
    simp only [beq_iff_eq]
    intro hxu
    have hx1 : x.joined_user_id ∈ as.map (fun y => y.joined_user_id) :=
      List.mem_map_of_mem _ hx
    have hx2 := hdisj hx1
    rw [hxu, ← hu] at hx2
    exact hx2 (List.mem_cons_self _ _)
  rw [hnone]
  simp only [Option.none_or]
  have hga : ((g a).joined_user_id == u) = true := by
    rw [hg, hu]
    simp
  simp [List.find?_cons, hpa, hga]

theorem verify_after_delay_noop (uid : Nat) (T : Int) (st : SysState)
    (a : Attribution)
    (hget : get_attribution_by_user st.attributions uid = some a)
    (hst : a.status ≠ AttributionStatus.pending) :
    (verify_after_delay uid T st).attributions = st.attributions := by
  simp [verify_after_delay, hget, hst]

/-- C8: after an administrator manually verifies or revokes an attribution
via the review callback, the user's verification-timer registry entry is
gone and the previously registered task is cancelled, so a later firing of
the verification body for that user leaves the attribution table unchanged
(no automatic verification ever occurs), even before the 600-second delay
has elapsed; verify additionally clears the record's note and stamps the
verification time, and revoke merges the manual_revoke tag while passing
the verification timestamp through. -/
theorem review_disarms_and_stops_verification
    (st : SysState) (action : ReviewAction) (attrId : Nat) (now : Int)
    (a : Attribution)
    (hfind : st.attributions.find? (fun x => x.id == attrId) = some a)
    (hnd : (st.attributions.map (fun x => x.joined_user_id)).Nodup) :
    ((handle_review_callback action attrId now st).registry.find?
      (fun e => e.1 == a.joined_user_id) = none) ∧
    (∀ e, st.registry.find? (fun x => x.1 == a.joined_user_id) = some e →
      ∀ tk ∈ (handle_review_callback action attrId now st).tasks,
        tk.tid = e.2 → tk.cancelled = true) ∧
    (∀ T : Int,
      (verify_after_delay a.joined_user_id T
        (handle_review_callback action attrId now st)).attributions =
      (handle_review_callback action attrId now st).attributions) ∧
    (action = ReviewAction.verify →
      get_attribution_by_user
        (handle_review_callback action attrId now st).attributions
        a.joined_user_id =
      some { a with status := AttributionStatus.verified,
                    verified_at := some now, note := none }) ∧
    (action = ReviewAction.revoke →
      get_attribution_by_user
        (handle_review_callback action attrId now st).attributions
        a.joined_user_id =
      some { a with status := AttributionStatus.revoked,
                    note := some (merge_note a.note "manual_revoke") }) := by
  cases action with
  | verify =>
    have hget : get_attribution_by_user
        (handle_review_callback ReviewAction.verify attrId now st).attributions
        a.joined_user_id =
        some { a with status := AttributionStatus.verified,
                      verified_at := some now, note := none } := by
      show (handle_review_callback ReviewAction.verify attrId now
        st).attributions.find? (fun x => x.joined_user_id == a.joined_user_id) =
        _
      simp only [handle_review_callback, hfind]
      rw [cancel_attributions]
      exact find?_map_other_key st.attributions attrId a.joined_user_id a
        (fun b => { update_attribution_status b AttributionStatus.verified
          (some now) now with note := none }) hfind rfl hnd rfl
    refine ⟨?_, ?_, ?_, fun _ => hget, fun h => ReviewAction.noConfusion h⟩
    · simp only [handle_review_callback, hfind]
      exact cancel_find_none _ _
    · intro e he tk htk htid
      simp only [handle_review_callback, hfind] at htk
      refine cancel_cancels a.joined_user_id _ e ?_ tk htk htid
      exact he
    · intro T
      exact verify_after_delay_noop _ T _ _ hget (by simp)
  | revoke =>
    have hget : get_attribution_by_user
        (handle_review_callback ReviewAction.revoke attrId now st).attributions
        a.joined_user_id =
        some { a with status := AttributionStatus.revoked,
                      note := some (merge_note a.note "manual_revoke") } := by
      show (handle_review_callback ReviewAction.revoke attrId now
        st).attributions.find? (fun x => x.joined_user_id == a.joined_user_id) =
        _
      simp only [handle_review_callback, hfind]
      rw [cancel_attributions]
      exact find?_map_other_key st.attributions attrId a.joined_user_id a
        (fun b =>
          { update_attribution_status b AttributionStatus.revoked
              a.verified_at now with
            note := some (merge_note (update_attribution_status b
              AttributionStatus.revoked a.verified_at now).note
              "manual_revoke") }) hfind rfl hnd rfl
    refine ⟨?_, ?_, ?_, fun h => ReviewAction.noConfusion h, fun _ => hget⟩
    · simp only [handle_review_callback, hfind]
      exact cancel_find_none _ _
    · intro e he tk htk htid
      simp only [handle_review_callback, hfind] at htk
      refine cancel_cancels a.joined_user_id _ e ?_ tk htk htid
      exact he
    · intro T
      exact verify_after_delay_noop _ T _ _ hget (by simp)

/-- C10: revoking an attribution, whether through a membership-leave event
or a manual admin revoke, only changes the status to revoked (plus, for the
manual path, merges a note tag) and passes the record's existing
verified_at value back unchanged, so a previously verified attribution
still carries its original verification timestamp after revocation. -/
theorem revocation_preserves_verified_at
    (st : SysState) (u : TgUser) (a : Attribution)
    (attrId : Nat) (now : Int) (b : Attribution) :
    (get_attribution_by_user st.attributions u.id = some a →
      (a.status = AttributionStatus.pending ∨
        a.status = AttributionStatus.verified) →
      get_attribution_by_user (handle_leave u st).attributions u.id =
        some { a with status := AttributionStatus.revoked }) ∧
    (st.attributions.find? (fun x => x.id == attrId) = some b →
      (st.attributions.map (fun x => x.joined_user_id)).Nodup →
      get_attribution_by_user
        (handle_review_callback ReviewAction.revoke attrId now
          st).attributions b.joined_user_id =
        some { b with status := AttributionStatus.revoked,
                      note := some (merge_note b.note "manual_revoke") }) ∧
    (Attribution.verified_at { a with status := AttributionStatus.revoked } =
      a.verified_at) ∧
    (Attribution.verified_at
      { b with status := AttributionStatus.revoked,
               note := some (merge_note b.note "manual_revoke") } =
      b.verified_at) := by
  refine ⟨?_, ?_, rfl, rfl⟩
  · intro hget hstatus
    show (handle_leave u st).attributions.find?
      (fun x => x.joined_user_id == u.id) = _
    simp only [handle_leave, hget, if_pos hstatus]
    rw [cancel_attributions]
    have hres := find?_map_self_key st.attributions u.id a
      (fun b2 => update_attribution_status b2 AttributionStatus.revoked
        a.verified_at 0) hget rfl
    exact hres
  · intro hfind hnd
    show (handle_review_callback ReviewAction.revoke attrId now
      st).attributions.find? (fun x => x.joined_user_id == b.joined_user_id) =
      _
    simp only [handle_review_callback, hfind]
    rw [cancel_attributions]
    exact find?_map_other_key st.attributions attrId b.joined_user_id b
      (fun b2 =>
        { update_attribution_status b2 AttributionStatus.revoked
            b.verified_at now with
          note := some (merge_note (update_attribution_status b2
            AttributionStatus.revoked b.verified_at now).note
            "manual_revoke") }) hfind rfl hnd rfl

theorem review_disarms_witness :
    (handle_review_callback ReviewAction.revoke 1 450 stB).registry.find?
      (fun e => e.1 == 10) = none ∧
    (∀ tk ∈ (handle_review_callback ReviewAction.revoke 1 450 stB).tasks,
      tk.tid = 0 → tk.cancelled = true) ∧
    (verify_after_delay 10 600
      (handle_review_callback ReviewAction.revoke 1 450 stB)).attributions =
      (handle_review_callback ReviewAction.revoke 1 450 stB).attributions :=
  ⟨(review_disarms_and_stops_verification stB ReviewAction.revoke 1 450
      attrP10 (by decide) (by decide)).1,
   (review_disarms_and_stops_verification stB ReviewAction.revoke 1 450
      attrP10 (by decide) (by decide)).2.1 (10, 0) (by decide),
   (review_disarms_and_stops_verification stB ReviewAction.revoke 1 450
      attrP10 (by decide) (by decide)).2.2.1 600⟩

theorem revocation_preserves_witness :
    get_attribution_by_user (handle_leave tgU10 stC).attributions 10 =
      some { attrV10 with status := AttributionStatus.revoked } ∧
    Attribution.verified_at
      { attrV10 with status := AttributionStatus.revoked } = some 900 :=
  ⟨(revocation_preserves_verified_at stC tgU10 attrV10 1 0 attrV10).1
      (by decide) (Or.inr (by decide)),
   (revocation_preserves_verified_at stC tgU10 attrV10 1 0 attrV10).2.2.1⟩

theorem dropWhile_old_eq_filter (bucket : List Int) (now : Int)
    (hs : List.Sorted (· ≤ ·) bucket) :
    bucket.dropWhile (fun t => now - t > BURST_WINDOW) =
      bucket.filter (fun t => now - t ≤ BURST_WINDOW) := by
  induction bucket with
  | nil => rfl
  | cons h t ih =>
    rw [List.sorted_cons] at hs
    by_cases hold : BURST_WINDOW < now - h
    · rw [List.dropWhile_cons, if_pos (by simpa using hold),
        List.filter_cons, if_neg (by simpa using Int.not_le.mpr hold)]
      exact ih hs.2
    · rw [List.dropWhile_cons, if_neg (by simpa using hold),
        List.filter_cons, if_pos (by simpa using Int.not_lt.mp hold)]
      congr 1
      symm
      rw [List.filter_eq_self]
      intro x hx
      have hhx := hs.1 x hx
      have := Int.not_lt.mp hold
      simp only [decide_eq_true_eq]
      omega

theorem foldl_cancel_attributions (us : List Nat) (x : Nat) (s : SysState) :
    (us.foldl (fun s2 u => if u == x then s2 else cancel_verification u s2)
      s).attributions = s.attributions := by
  induction us generalizing s with
  | nil => rfl
  | cons u us ih =>
    rw [List.foldl_cons]
    by_cases hu : (u == x) = true
    · rw [if_pos hu]
      exact ih s
    · rw [if_neg hu]
      rw [ih]
      exact cancel_attributions u s

theorem handle_join_burst_attrs
    (inp : JoinInput) (st : SysState) (aff : AffiliateRec)
    (hlink : ¬inp.invite_link.getD "" = "")
    (hsn : ¬inp.subnet.getD "" = "")
    (hburst : (record_subnet_event
      (lookupSubnet st.subnetEvents (inp.subnet.getD "")) inp.now).2 = true)
    (haff : st.affiliates.find? (fun x => x.link_code == inp.link_code) =
      some aff)
    (howner : ¬aff.owner_user_id = inp.user.id)
    (hactive : aff.is_active = true)
    (hnoattr : get_attribution_by_user st.attributions inp.user.id = none) :
    (handle_join inp st).attributions =
      (flag_subnet_burst
        (st.attributions ++
          [{ id := st.nextAttrId
             joined_user_id := inp.user.id
             affiliate_id := aff.id
             joined_at := inp.now
             verified_at := none
             status := AttributionStatus.pending
             note := some (String.mk (joinComma
               (("ip_burst" ::
                 (if is_fresh_account inp.user then ["fresh_account"]
                  else [])).map String.data)))
             last_seen_ip := inp.source_ip
             source_subnet := inp.subnet }])
        (inp.subnet.getD "") (inp.now - BURST_WINDOW)).1 := by
  rw [handle_join, if_neg hlink]
  simp only [if_neg hsn, hburst, if_true]
  rw [haff]
  simp only [upsert_user]
  rw [if_neg (by simp [howner, hactive])]
  rw [show get_attribution_by_user st.attributions inp.user.id = none from hnoattr]
  simp only [List.isEmpty_cons, Bool.not_false, if_pos rfl, if_true,
    List.contains_cons, beq_self_eq_true, Bool.true_or, create_attribution]
  rw [if_pos (by simp [beq_eq_false_iff_ne.mpr hsn])]
  rw [foldl_cancel_attributions, cancel_attributions]
  simp [beq_eq_false_iff_ne.mpr hsn]

/-- C2: the burst detector keeps a time-ordered queue of join timestamps
per subnet; on each join it discards entries older than the fixed 5-minute
window, appends the new timestamp (preserving time order), and reports a
burst exactly when the resulting queue length exceeds the threshold of 3,
so the 4th and every later join inside the window is flagged; and when the
join handler sees a burst on a join that creates an attribution, every
attribution sharing that subnet with join time within the trailing
5-minute window is reopened (forced pending with the ip_burst tag), not
only the triggering one, while the rows outside the subnet or window keep
their values. -/
theorem burst_detection_spec :
    (∀ (bucket : List Int) (now : Int), List.Sorted (· ≤ ·) bucket →
      (record_subnet_event bucket now).1 =
        bucket.filter (fun t => now - t ≤ BURST_WINDOW) ++ [now] ∧
      ((record_subnet_event bucket now).2 = true ↔
        (bucket.filter (fun t => now - t ≤ BURST_WINDOW)).length + 1 >
          BURST_THRESHOLD) ∧
      ((∀ t ∈ bucket, t ≤ now) →
        List.Sorted (· ≤ ·) (record_subnet_event bucket now).1)) ∧
    (∀ (inp : JoinInput) (st : SysState) (aff : AffiliateRec),
      ¬inp.invite_link.getD "" = "" →
      ¬inp.subnet.getD "" = "" →
      (record_subnet_event
        (lookupSubnet st.subnetEvents (inp.subnet.getD "")) inp.now).2 =
          true →
      st.affiliates.find? (fun x => x.link_code == inp.link_code) =
        some aff →
      ¬aff.owner_user_id = inp.user.id →
      aff.is_active = true →
      get_attribution_by_user st.attributions inp.user.id = none →
      (handle_join inp st).attributions.length =
        st.attributions.length + 1 ∧
      (∀ i (h1 : i < st.attributions.length)
          (h2 : i < (handle_join inp st).attributions.length),
        (burst_match (inp.subnet.getD "") (inp.now - BURST_WINDOW)
            st.attributions[i] = true →
          (handle_join inp st).attributions[i] =
            burst_update st.attributions[i]) ∧
        (burst_match (inp.subnet.getD "") (inp.now - BURST_WINDOW)
            st.attributions[i] = false →
          (handle_join inp st).attributions[i] = st.attributions[i]))) := by
  constructor
  · intro bucket now hs
    have hdw := dropWhile_old_eq_filter bucket now hs
    refine ⟨?_, ?_, ?_⟩
    · show bucket.dropWhile (fun t => now - t > BURST_WINDOW) ++ [now] = _
      rw [hdw]
    · show decide ((bucket.dropWhile (fun t => now - t > BURST_WINDOW) ++
        [now]).length > BURST_THRESHOLD) = true ↔ _
      rw [hdw]
      simp
    · intro hle
      show List.Sorted (· ≤ ·)
        (bucket.dropWhile (fun t => now - t > BURST_WINDOW) ++ [now])
      rw [hdw]
      rw [List.Sorted, List.pairwise_append]
      refine ⟨hs.filter _, List.pairwise_singleton _ _, ?_⟩
      intro x hx y hy
      rw [List.mem_singleton] at hy
      subst hy
      exact hle x (List.mem_of_mem_filter hx)
  · intro inp st aff hlink hsn hburst haff howner hactive hnoattr
    have hattr := handle_join_burst_attrs inp st aff hlink hsn hburst haff
      howner hactive hnoattr
    rw [hattr]
    constructor
    · simp [flag_subnet_burst]
    · intro i h1 h2
      constructor <;> intro hm <;>
        simp [flag_subnet_burst, List.getElem_append, h1, hm]

theorem burst_detection_spec_witness :
    ((record_subnet_event [0, 100, 200] 250).2 = true ↔
      ([0, 100, 200].filter
        (fun t : Int => 250 - t ≤ BURST_WINDOW)).length + 1 >
        BURST_THRESHOLD) ∧
    attrJ2v.status = AttributionStatus.verified ∧
    (handle_join inpJ stJ).attributions.get ⟨1, by decide⟩ =
      burst_update attrJ2v :=
  ⟨((burst_detection_spec.1 [0, 100, 200] 250 (by decide)).2.1),
   by decide,
   ((burst_detection_spec.2 inpJ stJ affA (by decide) (by decide) (by decide)
      (by decide) (by decide) (by decide) (by decide)).2 1 (by decide)
      (by decide)).1 (by decide)⟩

/-- C9 (amended): for every join event carrying an invite link, if the
link code resolves to no affiliate, or the resolved affiliate is inactive
or owned by the joining user, or the joining user already has an
attribution, then the join handler creates no attribution, logs no event
and arms no timer: the attribution table, event ledger, task list, timer
registry and affiliate table are all left unchanged.  The original claim's
stronger reading that the whole store is unchanged is false: the user row
is still upserted (and the subnet window still records the join), which
join_guard_changes_store exhibits. -/
theorem join_guards_frame
    (inp : JoinInput) (st : SysState)
    (hlink : ¬inp.invite_link.getD "" = "")
    (hguard :
      st.affiliates.find? (fun x => x.link_code == inp.link_code) = none ∨
      (∃ aff, st.affiliates.find? (fun x => x.link_code == inp.link_code) =
          some aff ∧
        (aff.owner_user_id = inp.user.id ∨ aff.is_active = false)) ∨
      get_attribution_by_user st.attributions inp.user.id ≠ none) :
    (handle_join inp st).attributions = st.attributions ∧
    (handle_join inp st).events = st.events ∧
    (handle_join inp st).tasks = st.tasks ∧
    (handle_join inp st).registry = st.registry ∧
    (handle_join inp st).affiliates = st.affiliates := by
  rw [handle_join, if_neg hlink]
  simp only [upsert_user]
  rcases hguard with hnone | ⟨aff, hsome, hbad⟩ | hattr
  · rw [show List.find? (fun a => a.link_code == inp.link_code) st.affiliates
      = none from hnone]
    exact ⟨rfl, rfl, rfl, rfl, rfl⟩
  · have hbb : (aff.owner_user_id == inp.user.id || !aff.is_active) = true := by
      rcases hbad with hb | hb <;> simp [hb]
    simp [hsome, hbb]
  · cases haff : List.find? (fun a => a.link_code == inp.link_code)
        st.affiliates with
    | none => exact ⟨rfl, rfl, rfl, rfl, rfl⟩
    | some aff =>
      by_cases hb : (aff.owner_user_id == inp.user.id || !aff.is_active) = true
      · simp [hb]
      · simp only [if_neg hb]
        cases hget : get_attribution_by_user st.attributions inp.user.id with
        | none => exact absurd hget hattr
        | some a0 => simp [hget]

/-- Counterexample to C9 as stated: a join whose link code resolves to no
affiliate still changes the store, because the user is upserted before the
guard runs; on an empty store the users table gains a row even though no
attribution is created. -/
theorem join_guard_changes_store :
    stEmptyUsers.affiliates.find?
      (fun x => x.link_code == inpJ.link_code) = none ∧
    ¬(handle_join inpJ stEmptyUsers).users = stEmptyUsers.users := by
  constructor
  · decide
  · decide

/-- C9 (amended): for every join event carrying an invite link, if the
link code resolves to no affiliate, or the resolved affiliate is inactive
or owned by the joining user, or the joining user already has an
attribution, then the join handler creates no attribution, logs no event
and arms no timer: the attribution table, event ledger, task list, timer
registry and affiliate table are all left unchanged.  The original claim's
stronger reading that the whole store is unchanged is false: the user row
is still upserted (and the subnet window still records the join), which
join_guard_changes_store exhibits. -/
theorem join_guards_frame_witness :
    (handle_join inpJ stEmptyUsers).attributions =
      stEmptyUsers.attributions ∧
    (handle_join inpJ stEmptyUsers).events = stEmptyUsers.events ∧
    (handle_join inpJ stEmptyUsers).tasks = stEmptyUsers.tasks ∧
    (handle_join inpJ stEmptyUsers).registry = stEmptyUsers.registry ∧
    (handle_join inpJ stEmptyUsers).affiliates = stEmptyUsers.affiliates :=
  join_guards_frame inpJ stEmptyUsers (by decide) (Or.inl (by decide))

theorem filterMap_map_eq_filter {a b : Type} (f : a → Option b) (g : b → a)
    (hfg : ∀ i p, f i = some p → g p = i) (l : List a) :
    (l.filterMap f).map g = l.filter (fun i => (f i).isSome) := by
  induction l with
  | nil => rfl
  | cons x l ih =>
    cases hf : f x with
    | none =>
      rw [List.filterMap_cons_none hf, List.filter_cons,
        if_neg (by simp [hf]), ih]
    | some p =>
      rw [List.filterMap_cons_some hf, List.map_cons, List.filter_cons,
        if_pos (by simp [hf]), ih, hfg x p hf]

theorem sorted_affiliates_props (affiliates : List AffiliateRec)
    (counts : List (Nat × Nat)) (limit : Nat) :
    List.Pairwise (fun p q : AffiliateRec × Nat => q.2 ≤ p.2)
      (sorted_affiliates_from_counts affiliates counts limit) ∧
    (∀ p ∈ sorted_affiliates_from_counts affiliates counts limit,
      (p.1.id, p.2) ∈ counts ∧
      affiliates.find? (fun x => x.id == p.1.id) = some p.1) ∧
    (sorted_affiliates_from_counts affiliates counts limit).length ≤ limit ∧
    (sorted_affiliates_from_counts affiliates counts limit).map
        (fun p => p.1.id) =
      ((List.insertionSort
        (fun i j => countLookup counts j ≤ countLookup counts i)
        (counts.map (fun e => e.1))).take limit).filter
          (fun i => (affiliates.find? (fun x => x.id == i)).isSome) := by
  haveI htot : IsTotal Nat
      (fun i j => countLookup counts j ≤ countLookup counts i) :=
    ⟨fun a b => le_total _ _⟩
  haveI htr : IsTrans Nat
      (fun i j => countLookup counts j ≤ countLookup counts i) :=
    ⟨fun _ _ _ hab hbc => le_trans hbc hab⟩
  by_cases hempty : counts.isEmpty = true
  · rw [sorted_affiliates_from_counts, if_pos hempty]
    refine ⟨List.Pairwise.nil, by simp, by simp, ?_⟩
    have : counts = [] := by
      cases counts with
      | nil => rfl
      | cons e l => simp [List.isEmpty_cons] at hempty
    subst this
    simp
  · rw [sorted_affiliates_from_counts, if_neg hempty]
    by_cases hids : ((List.insertionSort
        (fun i j => countLookup counts j ≤ countLookup counts i)
        (counts.map (fun e => e.1))).take limit).isEmpty = true
    · rw [if_pos hids]
      refine ⟨List.Pairwise.nil, by simp, by simp, ?_⟩
      rw [List.isEmpty_iff] at hids
      rw [hids]
      rfl
    · rw [if_neg hids]
      have hsorted0 : List.Sorted
          (fun i j => countLookup counts j ≤ countLookup counts i)
          (List.insertionSort
            (fun i j => countLookup counts j ≤ countLookup counts i)
            (counts.map (fun e => e.1))) :=
        List.sorted_insertionSort _ (counts.map (fun e => e.1))
      have hsorted : List.Pairwise
          (fun i j => countLookup counts j ≤ countLookup counts i)
          ((List.insertionSort
            (fun i j => countLookup counts j ≤ countLookup counts i)
            (counts.map (fun e => e.1))).take limit) :=
        List.Pairwise.sublist (List.take_sublist _ _) hsorted0
      refine ⟨?_, ?_, ?_, ?_⟩
      · rw [List.pairwise_filterMap]
        refine hsorted.imp ?_
        intro i j hij p hp q hq
        rw [Option.mem_def, Option.map_eq_some'] at hp hq
        rcases hp with ⟨x, _, rfl⟩
        rcases hq with ⟨y, _, rfl⟩
        exact hij
      · intro p hp
        rw [List.mem_filterMap] at hp
        rcases hp with ⟨i, hi, hf⟩
        rw [Option.map_eq_some'] at hf
        rcases hf with ⟨x, hxfind, rfl⟩
        have hxid : x.id = i := by
          have := List.find?_some hxfind
          simpa using this
        have hikey : i ∈ counts.map (fun e => e.1) := by
          have h1 := List.mem_of_mem_take hi
          rw [List.mem_insertionSort] at h1
          exact h1
        rw [List.mem_map] at hikey
        rcases hikey with ⟨e0, he0, he0key⟩
        have hfindc : counts.find? (fun e => e.1 == i) |>.isSome := by
          rw [List.find?_isSome]
          exact ⟨e0, he0, by simp [he0key]⟩
        rcases Option.isSome_iff_exists.mp hfindc with ⟨e1, he1⟩
        have he1mem : e1 ∈ counts := List.mem_of_find?_eq_some he1
        have he1key : e1.1 = i := by
          have := List.find?_some he1
          simpa using this
        constructor
        · show (x.id, countLookup counts i) ∈ counts
          rw [hxid]
          rw [countLookup, he1]
          show (i, e1.2) ∈ counts
          rw [← he1key]
          simpa using he1mem
        · rw [hxid]
          exact hxfind
      · calc (List.filterMap _ _).length
            ≤ _ := List.length_filterMap_le _ _
          _ ≤ limit := List.length_take_le _ _
      · rw [filterMap_map_eq_filter
            (fun i => Option.map (fun a => (a, countLookup counts i))
              (List.find? (fun a => a.id == i) affiliates))
            (fun p => p.1.id) ?hfg _]
        case hfg =>
          intro i p hf
          rw [Option.map_eq_some'] at hf
          rcases hf with ⟨x, hxfind, rfl⟩
          have := List.find?_some hxfind
          simpa using this
        apply List.filter_congr
        intro i _
        simp

theorem live_query_props (now : Int) (affiliates : List AffiliateRec)
    (attrs : List Attribution) (window_key : String) (limit : Nat) :
    List.Pairwise (fun p q : AffiliateRec × Nat => q.2 ≤ p.2)
      (live_query_top_affiliates now affiliates attrs window_key limit) ∧
    (live_query_top_affiliates now affiliates attrs window_key
      limit).length ≤ limit ∧
    (∀ p ∈ live_query_top_affiliates now affiliates attrs window_key limit,
      p.1 ∈ affiliates ∧
      p.2 = (attrs.filter (verified_in_window (window_cutoff now window_key)
        p.1.id)).length ∧
      p.2 ≠ 0) := by
  haveI htot : IsTotal (AffiliateRec × Nat)
      (fun p q => q.2 ≤ p.2) := ⟨fun a b => le_total _ _⟩
  haveI htr : IsTrans (AffiliateRec × Nat)
      (fun p q => q.2 ≤ p.2) := ⟨fun _ _ _ hab hbc => le_trans hbc hab⟩
  have hsorted0 : List.Sorted (fun p q : AffiliateRec × Nat => q.2 ≤ p.2)
      (List.insertionSort (fun p q : AffiliateRec × Nat => q.2 ≤ p.2)
        (affiliates.filterMap (fun a =>
          let total := (attrs.filter (verified_in_window
            (window_cutoff now window_key) a.id)).length
          if total = 0 then none else some (a, total)))) :=
    List.sorted_insertionSort _ _
  refine ⟨?_, ?_, ?_⟩
  · exact List.Pairwise.sublist (List.take_sublist _ _) hsorted0
  · exact List.length_take_le _ _
  · intro p hp
    have hp1 := List.mem_of_mem_take hp
    rw [List.mem_insertionSort] at hp1
    rw [List.mem_filterMap] at hp1
    rcases hp1 with ⟨a, hamem, hf⟩
    simp only at hf
    by_cases hz : (attrs.filter (verified_in_window
        (window_cutoff now window_key) a.id)).length = 0
    · rw [if_pos hz] at hf
      exact absurd hf (by simp)
    · rw [if_neg hz] at hf
      injection hf with hf
      rw [← hf]
      exact ⟨hamem, rfl, hz⟩

/-- C5: topAffiliates on the cache-backed path (cache in use and an entry
primed for the normalized window key) answers from the cached counts:
it sorts the cached affiliate ids by count in descending order (stable),
takes the top limit ids, resolves affiliate rows for exactly that id set
(dropping ids whose row is gone) and returns the pairs in the count-sorted
order established before resolution, each pair carrying its count from the
cache; whenever the cache is bypassed or holds no entry for the window, it
answers from the live aggregate query over the attribution ledger, which
counts verified attributions inside the same window cutoff and returns at
most limit pairs in the same descending-count order. -/
theorem top_affiliates_spec (now : Int) (affiliates : List AffiliateRec)
    (attrs : List Attribution) (cache : List (String × List (Nat × Nat)))
    (limit : Nat) (window : String) :
    (∀ entry, cache.find? (fun e => e.1 ==
        (if (LEADERBOARD_WINDOWS.map (fun e => e.1)).contains window then
          window else "all")) = some entry →
      top_affiliates now affiliates attrs cache limit window true =
        sorted_affiliates_from_counts affiliates entry.2 limit) ∧
    (cache.find? (fun e => e.1 ==
        (if (LEADERBOARD_WINDOWS.map (fun e => e.1)).contains window then
          window else "all")) = none →
      top_affiliates now affiliates attrs cache limit window true =
        live_query_top_affiliates now affiliates attrs
          (if (LEADERBOARD_WINDOWS.map (fun e => e.1)).contains window then
            window else "all") limit) ∧
    (top_affiliates now affiliates attrs cache limit window false =
      live_query_top_affiliates now affiliates attrs
        (if (LEADERBOARD_WINDOWS.map (fun e => e.1)).contains window then
          window else "all") limit) ∧
    (∀ counts,
      List.Pairwise (fun p q : AffiliateRec × Nat => q.2 ≤ p.2)
        (sorted_affiliates_from_counts affiliates counts limit) ∧
      (∀ p ∈ sorted_affiliates_from_counts affiliates counts limit,
        (p.1.id, p.2) ∈ counts ∧
        affiliates.find? (fun x => x.id == p.1.id) = some p.1) ∧
      (sorted_affiliates_from_counts affiliates counts limit).length ≤
        limit ∧
      (sorted_affiliates_from_counts affiliates counts limit).map
          (fun p => p.1.id) =
        ((List.insertionSort
          (fun i j => countLookup counts j ≤ countLookup counts i)
          (counts.map (fun e => e.1))).take limit).filter
            (fun i => (affiliates.find? (fun x => x.id == i)).isSome)) ∧
    (∀ window_key,
      List.Pairwise (fun p q : AffiliateRec × Nat => q.2 ≤ p.2)
        (live_query_top_affiliates now affiliates attrs window_key limit) ∧
      (live_query_top_affiliates now affiliates attrs window_key
        limit).length ≤ limit ∧
      (∀ p ∈ live_query_top_affiliates now affiliates attrs window_key
          limit,
        p.1 ∈ affiliates ∧
        p.2 = (attrs.filter (verified_in_window
          (window_cutoff now window_key) p.1.id)).length ∧
        p.2 ≠ 0)) := by
  refine ⟨?_, ?_, ?_, fun counts => sorted_affiliates_props affiliates
    counts limit, fun window_key => live_query_props now affiliates attrs
    window_key limit⟩
  · intro entry hfind
    simp only [top_affiliates, hfind]
  · intro hfind
    simp only [top_affiliates, hfind]
  · rfl

theorem top_affiliates_spec_witness :
    top_affiliates 0 [affL1, affL2, affL3] [] cacheL 2 "7d" true =
      sorted_affiliates_from_counts [affL1, affL2, affL3]
        [(1, 2), (2, 5), (3, 1)] 2 ∧
    top_affiliates 0 [affL1, affL2, affL3] [] cacheL 2 "7d" true =
      [(affL2, 5), (affL1, 2)] ∧
    top_affiliates 0 [affL1, affL2, affL3] [] cacheL 2 "7d" false =
      live_query_top_affiliates 0 [affL1, affL2, affL3] [] "7d" 2 :=
  ⟨(top_affiliates_spec 0 [affL1, affL2, affL3] [] cacheL 2 "7d").1
      ("7d", [(1, 2), (2, 5), (3, 1)]) (by decide),
   by decide,
   (top_affiliates_spec 0 [affL1, affL2, affL3] [] cacheL 2 "7d").2.2.1⟩

theorem verification_timer_spec_witness :
    get_attribution_by_user stV.attributions 30 = some attrClean ∧
    (verify_after_delay 30 600 stV).attributions =
      stV.attributions.map (fun b : Attribution =>
        if b.joined_user_id == 30 then
          { b with status := AttributionStatus.verified
                   verified_at := some 600 }
        else b) ∧
    (verify_after_delay 30 600 stV).attributions =
      [{ attrClean with status := AttributionStatus.verified
                        verified_at := some 600 }] ∧
    (verify_after_delay 30 600 stV).registry = [] :=
  ⟨by decide,
   ((verification_timer_spec.2.2 30 600 stV).1 attrClean (by decide)
      (by decide) (by decide)),
   by decide,
   by decide⟩

end Splref
